import Mathlib

/-!
Verification of the SuiteStack multi-dimensional authorization engine
(`src/PermissionMiddleware.ts`): rule table, scope predicates, decision
cache, filter deriver and audit escalation, shallowly embedded in Lean.

Conventions of the embedding:
* TypeScript string-union types (`UserRole`, `Region`, `PropertyType`) are
  plain `String`s, exactly as they are compared in the source.
* `ResourceType` and `ActionType` are the two TypeScript enums; their
  `.str` projections are the enum string values used in cache keys.
* An optional string field of a JS object is `Option String`; `none`
  models an absent/undefined field.  Where the source tests truthiness
  (`!metadata?.regionId`, `resourceId && ...`, `resourceId || ''`) the
  embedding spells out the falsy cases: `none` and the empty string.
* `Date.now()` timestamps are `Nat` millisecond values passed explicitly.
* Side effects (cache mutation, security alerts) are explicit state
  passing / returned counters.
-/

/-- The `ResourceType` enum of the source. -/
inductive ResourceType
  | BUILDING
  | SUITE
  | TENANT
  | MARKET
  | ANALYTICS
  | EXPORT
  | ADMIN
deriving DecidableEq, Repr

/-- String value of each `ResourceType` enum member. -/
def ResourceType.str : ResourceType → String
  | .BUILDING => "building"
  | .SUITE => "suite"
  | .TENANT => "tenant"
  | .MARKET => "market"
  | .ANALYTICS => "analytics"
  | .EXPORT => "export"
  | .ADMIN => "admin"

/-- The `ActionType` enum of the source. -/
inductive ActionType
  | READ
  | CREATE
  | UPDATE
  | DELETE
  | EXPORT
  | SHARE
deriving DecidableEq, Repr

/-- String value of each `ActionType` enum member. -/
def ActionType.str : ActionType → String
  | .READ => "read"
  | .CREATE => "create"
  | .UPDATE => "update"
  | .DELETE => "delete"
  | .EXPORT => "export"
  | .SHARE => "share"

/-- Embedded `SessionUser`: the identity record attached to a session.
`role`, `regions` and `propertyTypes` are string-typed in the source
(`UserRole`, `Region`, `PropertyType` are string unions). -/
structure SessionUser where
  id : String
  email : String
  role : String
  regions : List String
  propertyTypes : List String
  assignedBuildings : List String
  universalAccess : Bool
  lastActivity : Nat
deriving DecidableEq, Repr

/-- The two metadata fields the permission code reads from the
`Record<string, any>` metadata object (`regionId`, `propertyType`). -/
structure ResourceMetadata where
  regionId : Option String
  propertyType : Option String
deriving DecidableEq, Repr

/-- Embedded `PermissionContext`: one access attempt. -/
structure PermissionContext where
  user : SessionUser
  resource : ResourceType
  action : ActionType
  resourceId : Option String
  metadata : Option ResourceMetadata
deriving DecidableEq, Repr

/-- Embedded `hasRegionAccess`: universal access or wildcard region bypass,
otherwise the metadata's `regionId` must be truthy (present and
non-empty, per `!metadata?.regionId`) and a member of `user.regions`. -/
def hasRegionAccess (context : PermissionContext) : Bool :=
  if context.user.universalAccess || context.user.regions.contains "all_regions" then
    true
  else
    match context.metadata with
    | none => false
    | some m =>
      match m.regionId with
      | none => false
      | some r => if r == "" then false else context.user.regions.contains r

/-- Embedded `hasPropertyTypeAccess`: symmetric to `hasRegionAccess` over
`user.propertyTypes`, the `all_types` wildcard and `metadata.propertyType`. -/
def hasPropertyTypeAccess (context : PermissionContext) : Bool :=
  if context.user.universalAccess || context.user.propertyTypes.contains "all_types" then
    true
  else
    match context.metadata with
    | none => false
    | some m =>
      match m.propertyType with
      | none => false
      | some p => if p == "" then false else context.user.propertyTypes.contains p

/-- Embedded `hasBuildingAccess`: admins and universal access always pass;
otherwise region and property-type access are both required, and the
allow-list membership test runs only when `resourceId` is truthy and
`assignedBuildings` is non-empty (`resourceId && user.assignedBuildings.length > 0`). -/
def hasBuildingAccess (context : PermissionContext) : Bool :=
  if context.user.role == "admin" || context.user.universalAccess then
    true
  else if !(hasRegionAccess context) || !(hasPropertyTypeAccess context) then
    false
  else
    match context.resourceId with
    | some rid =>
      if rid != "" && context.user.assignedBuildings.length > 0 then
        context.user.assignedBuildings.contains rid
      else
        true
    | none => true

/-- The two condition closures used in `PERMISSION_RULES`, as a tagged
type (the source stores them as function references). -/
inductive RuleCondition
  | regionAndPropertyType
  | buildingAccess
deriving DecidableEq, Repr

/-- Evaluation of a rule's condition closure against a context. -/
def evalCondition : RuleCondition → PermissionContext → Bool
  | .regionAndPropertyType, context => hasRegionAccess context && hasPropertyTypeAccess context
  | .buildingAccess, context => hasBuildingAccess context

/-- Embedded `PermissionRule`: one row of the rule table. -/
structure PermissionRule where
  role : String
  resource : ResourceType
  actions : List ActionType
  condition : Option RuleCondition
deriving DecidableEq, Repr

/-- Embedded `PERMISSION_RULES`: the static rule table of the source, in order. -/
def PERMISSION_RULES : List PermissionRule :=
  [ -- Admin
    ⟨"admin", .BUILDING, [.READ, .CREATE, .UPDATE, .DELETE, .EXPORT, .SHARE], none⟩,
    ⟨"admin", .TENANT, [.READ, .CREATE, .UPDATE, .DELETE], none⟩,
    ⟨"admin", .ADMIN, [.READ, .CREATE, .UPDATE, .DELETE], none⟩,
    -- Researcher
    ⟨"researcher", .BUILDING, [.READ, .UPDATE, .EXPORT], some .regionAndPropertyType⟩,
    ⟨"researcher", .SUITE, [.READ, .CREATE, .UPDATE], some .buildingAccess⟩,
    ⟨"researcher", .TENANT, [.READ, .CREATE, .UPDATE], none⟩,
    -- Broker
    ⟨"broker", .BUILDING, [.READ, .EXPORT], some .buildingAccess⟩,
    ⟨"broker", .SUITE, [.READ], some .buildingAccess⟩,
    ⟨"broker", .TENANT, [.READ], none⟩,
    -- Viewer
    ⟨"viewer", .BUILDING, [.READ], some .buildingAccess⟩,
    ⟨"viewer", .SUITE, [.READ], some .buildingAccess⟩ ]

/-- The rule loop of `checkPermission`: skip rules whose action set does
not contain the requested action; a conditioned rule allows only when its
condition evaluates true, an unconditioned matching rule allows
immediately; an exhausted list denies. -/
def checkRules (context : PermissionContext) : List PermissionRule → Bool
  | [] => false
  | rule :: rest =>
    if !(rule.actions.contains context.action) then
      checkRules context rest
    else
      match rule.condition with
      | some cond => if evalCondition cond context then true else checkRules context rest
      | none => true

/-- Embedded `checkPermission`: filter the table to the user's role and the
requested resource, then run the rule loop. -/
def checkPermission (context : PermissionContext) : Bool :=
  checkRules context (PERMISSION_RULES.filter
    (fun rule => rule.role == context.user.role && rule.resource == context.resource))

/-- A rule's condition is absent or satisfied against a context — the
guard under which a role/resource/action-matching rule allows. -/
def condHolds (rule : PermissionRule) (context : PermissionContext) : Bool :=
  match rule.condition with
  | none => true
  | some cond => evalCondition cond context

/-- The shape of the filter object built by `buildPermissionFilters`:
each field is an optional `{ in: [...] }` constraint; `none` means the
field is never assigned (no restriction on that dimension). -/
structure PermissionFilters where
  regionId : Option (List String)
  propertyType : Option (List String)
  id : Option (List String)
deriving DecidableEq, Repr

/-- Embedded `buildPermissionFilters`: admins and universal access get the empty
filter; otherwise `regionId`/`propertyType` constraints are added unless
the matching wildcard tag is held, and the `id` constraint is added only
when `assignedBuildings` is non-empty and the resource is `BUILDING`. -/
def buildPermissionFilters (user : SessionUser) (resource : ResourceType) : PermissionFilters :=
  if user.role == "admin" || user.universalAccess then
    ⟨none, none, none⟩
  else
    { regionId :=
        if user.regions.contains "all_regions" then none else some user.regions
      propertyType :=
        if user.propertyTypes.contains "all_types" then none else some user.propertyTypes
      id :=
        if user.assignedBuildings.length > 0 && resource == ResourceType.BUILDING then
          some user.assignedBuildings
        else none }

/-- One stored cache value: `{ result, timestamp }`. -/
structure CacheEntry where
  result : Bool
  timestamp : Nat
deriving DecidableEq, Repr

/-- The cache's `Map<string, {result, timestamp}>`, as an association
list (first binding of a key is the live one). -/
abbrev CacheState := List (String × CacheEntry)

/-- Embedded `Map.get`: first binding of the key, if any. -/
def mapFind (key : String) : CacheState → Option CacheEntry
  | [] => none
  | (k, e) :: rest => if k == key then some e else mapFind key rest

/-- Embedded `Map.set`: replace the key's binding in place, else append. -/
def mapInsert (key : String) (entry : CacheEntry) : CacheState → CacheState
  | [] => [(key, entry)]
  | (k, e) :: rest =>
    if k == key then (key, entry) :: rest else (k, e) :: mapInsert key entry rest

/-- Embedded `Map.delete`: remove the key's binding. -/
def mapDelete (key : String) : CacheState → CacheState
  | [] => []
  | (k, e) :: rest => if k == key then rest else (k, e) :: mapDelete key rest

/-- The cache TTL: `5 * 60 * 1000` milliseconds. -/
def cacheTTL : Nat := 5 * 60 * 1000

/-- Embedded `getCacheKey`: `` `${user.id}:${resource}:${action}:${resourceId || ''}` ``. -/
def getCacheKey (context : PermissionContext) : String :=
  context.user.id ++ ":" ++ context.resource.str ++ ":" ++ context.action.str ++ ":" ++
    context.resourceId.getD ""

/-- Embedded `PermissionCache.get` at time `now`: a missing key is a miss; an
entry older than the TTL is deleted and reported as a miss; otherwise
the stored result is returned and the state is untouched. -/
def cacheGet (now : Nat) (context : PermissionContext) (c : CacheState) :
    Option Bool × CacheState :=
  match mapFind (getCacheKey context) c with
  | none => (none, c)
  | some cached =>
    if now - cached.timestamp > cacheTTL then
      (none, mapDelete (getCacheKey context) c)
    else
      (some cached.result, c)

/-- Embedded `PermissionCache.set` at time `now`. -/
def cacheSet (now : Nat) (context : PermissionContext) (result : Bool)
    (c : CacheState) : CacheState :=
  mapInsert (getCacheKey context) ⟨result, now⟩ c

/-- JS `s.startsWith(p)` over the characters of the strings. -/
def listIsPfx : List Char → List Char → Bool
  | [], _ => true
  | _ :: _, [] => false
  | a :: as, b :: bs => a == b && listIsPfx as bs

/-- Embeds `s.startsWith(p)` as `strStartsWith s p`. -/
def strStartsWith (s p : String) : Bool := listIsPfx p.data s.data

/-- Embedded `PermissionCache.invalidateUser`: delete every binding whose key
starts with `` `${userId}:` ``. -/
def invalidateUser (userId : String) (c : CacheState) : CacheState :=
  c.filter (fun kv => !(strStartsWith kv.1 (userId ++ ":")))

/-- Embedded `checkPermissionWithCache`, parameterized by the evaluation function
it falls back to on a miss (the source hard-wires `checkPermission`; the
parameter lets theorems state that a fresh hit never invokes it). -/
def checkPermissionWithCacheGen (evalFn : PermissionContext → Bool) (now : Nat)
    (context : PermissionContext) (c : CacheState) : Bool × CacheState :=
  match cacheGet now context c with
  | (some cached, c') => (cached, c')
  | (none, c') =>
    let result := evalFn context
    (result, cacheSet now context result c')

/-- Embedded `checkPermissionWithCache` as shipped: the miss path runs
`checkPermission`. -/
def checkPermissionWithCache (now : Nat) (context : PermissionContext)
    (c : CacheState) : Bool × CacheState :=
  checkPermissionWithCacheGen checkPermission now context c

/-- The `AuditLog` record built by `logPermissionDenied` (the `Date`
timestamp is kept abstract as the `Nat` instant passed by the caller). -/
structure AuditLogRec where
  userId : String
  userEmail : String
  action : String
  resource : String
  resourceId : Option String
  granted : Bool
  timestamp : Nat
  metadata : Option ResourceMetadata
deriving DecidableEq, Repr

/-- Embedded `isSupiciousActivity` (source spelling): the denied resource is the
`ADMIN` kind and the user's role is not `admin`. -/
def isSupiciousActivity (context : PermissionContext) : Bool :=
  context.resource == ResourceType.ADMIN && !(context.user.role == "admin")

/-- Embedded `logPermissionDenied` at instant `now`: returns the audit record it
writes together with the number of `alertSecurityTeam` invocations it
performs (one when the denial is suspicious, zero otherwise). -/
def logPermissionDenied (now : Nat) (context : PermissionContext) : AuditLogRec × Nat :=
  (⟨context.user.id, context.user.email, context.action.str, context.resource.str,
    context.resourceId, false, now, context.metadata⟩,
   if isSupiciousActivity context then 1 else 0)

/-- Total `alertSecurityTeam` invocations over a sequence of denials. -/
def alertCount (now : Nat) (contexts : List PermissionContext) : Nat :=
  (contexts.map (fun context => (logPermissionDenied now context).2)).sum

/-! ### Helper lemmas -/

/-- Embedded `List.contains` agrees with membership (all our element types have
lawful `BEq` from decidable equality). -/
lemma contains_eq_true_iff {α : Type} [BEq α] [LawfulBEq α] (l : List α) (a : α) :
    l.contains a = true ↔ a ∈ l := List.elem_iff

/-! ### C9 -/

/-- C9: `hasBuildingAccess` treats an empty-string `resourceId` like an
absent one: for a non-admin, non-universal-access identity with a
non-empty allow-list that passes the region and property-type checks,
the decision for `resourceId = some ""` is `true` even though `""` is
not a member of the allow-list. -/
theorem emptyResourceIdSkipsAllowList (context : PermissionContext)
    (hrid : context.resourceId = some "")
    (hrole : context.user.role ≠ "admin")
    (huniv : context.user.universalAccess = false)
    (hne : context.user.assignedBuildings ≠ [])
    (hmem : "" ∉ context.user.assignedBuildings)
    (hreg : hasRegionAccess context = true)
    (hpt : hasPropertyTypeAccess context = true) :
    hasBuildingAccess context = true := by
  unfold hasBuildingAccess
  simp [hrid, hrole, huniv, hreg, hpt]

/-- Witness for C9 at a concrete broker context. -/
theorem emptyResourceIdSkipsAllowList_witness :
    hasBuildingAccess
      ⟨⟨"u1", "b@x", "broker", ["r1"], ["office"], ["b1"], false, 0⟩,
        .BUILDING, .READ, some "", some ⟨some "r1", some "office"⟩⟩ = true :=
  emptyResourceIdSkipsAllowList _ rfl (by decide) rfl (by decide) (by decide)
    (by decide) (by decide)

/-! ### C8 -/

/-- C8: `logPermissionDenied` escalates to the security team exactly
once iff the denied resource kind is `ADMIN` and the identity's role is
not `admin`; every other denial escalates zero times, and `n` repeated
identical suspicious denials escalate `n` times. -/
theorem suspiciousDenialEscalatesExactlyOnce (now : Nat) (context : PermissionContext) (n : Nat) :
    ((logPermissionDenied now context).2 = 1 ↔
      (context.resource = ResourceType.ADMIN ∧ context.user.role ≠ "admin"))
    ∧ ((logPermissionDenied now context).2 = 0 ↔
      ¬(context.resource = ResourceType.ADMIN ∧ context.user.role ≠ "admin"))
    ∧ alertCount now (List.replicate n context) = n * (logPermissionDenied now context).2 := by
  refine ⟨?_, ?_, ?_⟩
  · unfold logPermissionDenied isSupiciousActivity
    by_cases h1 : context.resource = ResourceType.ADMIN
    · by_cases h2 : context.user.role = "admin" <;> simp [h1, h2]
    · simp [h1]
  · unfold logPermissionDenied isSupiciousActivity
    by_cases h1 : context.resource = ResourceType.ADMIN
    · by_cases h2 : context.user.role = "admin" <;> simp [h1, h2]
    · simp [h1]
  · simp [alertCount, List.sum_replicate, smul_eq_mul, mul_comm]

/-! ### C1 -/

/-- Counterexample to C1 as stated: an identity with role `admin`
requesting `READ` on the `MARKET` resource kind is denied, because the
rule table has no admin rule for `MARKET`. -/
theorem adminNotUniversalCounterexample :
    let context : PermissionContext :=
      ⟨⟨"a1", "a@x", "admin", [], [], [], false, 0⟩, .MARKET, .READ, none, none⟩
    context.user.role = "admin" ∧ checkPermission context = false := by
  decide

/-- C1 (amended): for every identity with role `admin`, `checkPermission`
returns `true` exactly for the combinations present in the admin rows of
`PERMISSION_RULES` — every action on `BUILDING`, and `READ`/`CREATE`/
`UPDATE`/`DELETE` on `TENANT` and on `ADMIN` — regardless of metadata
and resource id; all other resource kinds and actions are denied. -/
theorem adminRuleTableCharacterization (context : PermissionContext)
    (h : context.user.role = "admin") :
    checkPermission context = true ↔
      (context.resource = ResourceType.BUILDING ∨
       (context.resource = ResourceType.TENANT ∧
         context.action ∈ [ActionType.READ, .CREATE, .UPDATE, .DELETE]) ∨
       (context.resource = ResourceType.ADMIN ∧
         context.action ∈ [ActionType.READ, .CREATE, .UPDATE, .DELETE])) := by
  rcases context with ⟨⟨uid, em, role, regs, pts, ab, ua, la⟩, res, act, rid, md⟩
  simp only at h
  subst h
  cases res <;> cases act <;> dsimp only <;>
    first
      | exact iff_of_true rfl (by decide)
      | exact iff_of_false (fun h => Bool.noConfusion h) (by decide)

/-- Witness for C1 (amended): a concrete admin identity may `SHARE` a
building. -/
theorem adminRuleTableCharacterization_witness :
    checkPermission
      ⟨⟨"a1", "a@x", "admin", [], [], [], false, 0⟩, .BUILDING, .SHARE, none, none⟩ = true :=
  (adminRuleTableCharacterization _ rfl).mpr (Or.inl rfl)

/-! ### C2 -/

/-- Counterexample to C2 as stated: a non-admin, non-universal identity
with a non-empty allow-list receives no `id` constraint for the `SUITE`
resource kind, because `buildPermissionFilters` adds the allow-list
constraint only for `BUILDING`. -/
theorem filterAllowListSuiteCounterexample :
    let user : SessionUser := ⟨"u1", "b@x", "broker", ["r1"], ["office"], ["b1"], false, 0⟩
    user.role ≠ "admin" ∧ user.universalAccess = false ∧
      user.assignedBuildings ≠ [] ∧
      (buildPermissionFilters user ResourceType.SUITE).id = none := by
  decide

/-- C2 (amended): for every non-admin identity without universal access,
`buildPermissionFilters` includes the `id` constraint (restricted to
`assignedBuildings`) exactly when the allow-list is non-empty AND the
resource kind is `BUILDING`; for every other resource kind the
constraint is always omitted, diverging from the per-item allow-list
enforcement of `hasBuildingAccess` on e.g. `SUITE`. -/
theorem filterAllowListOnlyForBuildings (user : SessionUser) (resource : ResourceType)
    (h1 : user.role ≠ "admin") (h2 : user.universalAccess = false) :
    ((buildPermissionFilters user resource).id = some user.assignedBuildings ↔
      (user.assignedBuildings ≠ [] ∧ resource = ResourceType.BUILDING))
    ∧ (resource ≠ ResourceType.BUILDING → (buildPermissionFilters user resource).id = none) := by
  unfold buildPermissionFilters
  simp only [h1, h2, Bool.or_false, beq_iff_eq, if_false]
  by_cases hb : resource = ResourceType.BUILDING
  · by_cases hne : user.assignedBuildings = []
    · simp [hb, hne]
    · have : 0 < user.assignedBuildings.length := List.length_pos.mpr hne
      simp [hb, hne, this]
  · simp [hb]

/-- Witness for C2 (amended) at a concrete broker identity and the
`BUILDING` resource kind. -/
theorem filterAllowListOnlyForBuildings_witness :
    (buildPermissionFilters ⟨"u1", "b@x", "broker", ["r1"], ["office"], ["b1"], false, 0⟩
      ResourceType.BUILDING).id = some ["b1"] :=
  (filterAllowListOnlyForBuildings _ _ (by decide) rfl).1.mpr ⟨by decide, rfl⟩


/-! ### C3 -/

/-- Counterexample to C3 as stated: a supplied but empty-string
`resourceId` is not a member of the non-empty allow-list, yet
`hasBuildingAccess` returns `true` (the truthiness test skips the
membership check), contradicting the claimed membership requirement for
every supplied `resourceId`. -/
theorem buildingAccessMembershipCounterexample :
    let context : PermissionContext :=
      ⟨⟨"u1", "b@x", "broker", ["r1"], ["office"], ["b1"], false, 0⟩,
        .BUILDING, .READ, some "", some ⟨some "r1", some "office"⟩⟩
    context.user.role ≠ "admin" ∧ context.user.universalAccess = false ∧
      hasRegionAccess context = true ∧ hasPropertyTypeAccess context = true ∧
      context.resourceId = some "" ∧ context.user.assignedBuildings ≠ [] ∧
      "" ∉ context.user.assignedBuildings ∧
      hasBuildingAccess context = true := by
  decide

/-- C3 (amended): `hasBuildingAccess` returns `true` for every admin or
universal-access identity; for every other identity it returns `true`
iff region and property-type access both hold and, whenever the supplied
`resourceId` is non-empty (truthy) and the allow-list is non-empty, the
`resourceId` is a member of the allow-list; an empty allow-list, an
absent `resourceId` or an empty-string `resourceId` skips the membership
check entirely. -/
theorem buildingAccessCharacterization (context : PermissionContext) :
    ((context.user.role = "admin" ∨ context.user.universalAccess = true) →
      hasBuildingAccess context = true)
    ∧ (context.user.role ≠ "admin" → context.user.universalAccess = false →
      (hasBuildingAccess context = true ↔
        (hasRegionAccess context = true ∧ hasPropertyTypeAccess context = true ∧
          ∀ rid, context.resourceId = some rid → rid ≠ "" →
            context.user.assignedBuildings ≠ [] →
            rid ∈ context.user.assignedBuildings))) := by
  constructor
  · intro h
    unfold hasBuildingAccess
    rcases h with h | h <;> simp [h]
  · intro h1 h2
    unfold hasBuildingAccess
    simp only [h1, h2, beq_iff_eq, if_false, Bool.or_false, if_neg]
    by_cases hreg : hasRegionAccess context
    · by_cases hpt : hasPropertyTypeAccess context
      · simp only [hreg, hpt, Bool.not_true, Bool.or_self, Bool.false_or, if_false, true_and]
        cases hrid : context.resourceId with
        | none => simp
        | some rid =>
          simp only [Option.some.injEq]
          by_cases hempty : rid = ""
          · subst hempty
            simp
          · by_cases hab : context.user.assignedBuildings = []
            · simp [hab, hempty]
            · have hlen : 0 < context.user.assignedBuildings.length :=
                List.length_pos.mpr hab
              simp [hempty, hab, hlen, contains_eq_true_iff]
      · simp [hreg, hpt]
    · simp [hreg]

/-- Witness for C3 (amended): the admin clause fired at a concrete
context. -/
theorem buildingAccessCharacterization_witness :
    hasBuildingAccess
      ⟨⟨"a1", "a@x", "admin", [], [], [], false, 0⟩, .BUILDING, .DELETE,
        some "bX", none⟩ = true :=
  (buildingAccessCharacterization _).1 (Or.inl rfl)


/-! ### C4 -/

/-- Counterexample to C4 as stated: with no universal access and no
wildcard, a metadata region tag that IS contained in `identity.regions`
— the empty string — still yields `false`, because the truthiness test
`!metadata?.regionId` treats an empty-string tag as missing; the claimed
"contains `metadata.regionTag`" disjunct would yield `true`. -/
theorem regionAccessEmptyTagCounterexample :
    let context : PermissionContext :=
      ⟨⟨"u2", "e@x", "viewer", [""], ["office"], [], false, 0⟩,
        .BUILDING, .READ, none, some ⟨some "", some "office"⟩⟩
    context.user.universalAccess = false ∧
      "all_regions" ∉ context.user.regions ∧
      context.metadata = some ⟨some "", some "office"⟩ ∧
      "" ∈ context.user.regions ∧
      hasRegionAccess context = false := by
  decide

/-- C4 (amended): `hasRegionAccess` is `true` iff universal access
holds, or `regions` contains the wildcard `all_regions`, or the
metadata's region tag is present, non-empty, and a member of `regions`;
an absent or empty-string (falsy) tag fails closed.  Symmetrically for
`hasPropertyTypeAccess` over `propertyTypes`, `all_types` and the
metadata's property type.  In particular both predicates are `true`
whenever `universalAccess` holds, even with metadata absent. -/
theorem regionAndPropertyAccessCharacterization (context : PermissionContext) :
    (hasRegionAccess context = true ↔
      (context.user.universalAccess = true ∨
        "all_regions" ∈ context.user.regions ∨
        ∃ m, context.metadata = some m ∧ ∃ t, m.regionId = some t ∧ t ≠ "" ∧
          t ∈ context.user.regions))
    ∧ (hasPropertyTypeAccess context = true ↔
      (context.user.universalAccess = true ∨
        "all_types" ∈ context.user.propertyTypes ∨
        ∃ m, context.metadata = some m ∧ ∃ t, m.propertyType = some t ∧ t ≠ "" ∧
          t ∈ context.user.propertyTypes)) := by
  constructor
  · unfold hasRegionAccess
    by_cases hu : context.user.universalAccess = true
    · simp [hu]
    · by_cases hw : "all_regions" ∈ context.user.regions
      · simp [hu, hw, (contains_eq_true_iff _ _).mpr hw]
      · have hwc : context.user.regions.contains "all_regions" = false := by
          exact Bool.not_eq_true _ ▸ fun hc => hw ((contains_eq_true_iff _ _).mp hc)
        simp only [Bool.not_eq_true] at hu
        simp only [hu, hwc, Bool.or_self, if_false, Bool.false_eq_true, false_or, hw]
        cases hmd : context.metadata with
        | none => simp
        | some m =>
          cases hrid : m.regionId with
          | none => simp [hrid]
          | some t =>
            by_cases ht : t = ""
            · simp [hrid, ht]
            · simp [hrid, ht]
  · unfold hasPropertyTypeAccess
    by_cases hu : context.user.universalAccess = true
    · simp [hu]
    · by_cases hw : "all_types" ∈ context.user.propertyTypes
      · simp [hu, hw, (contains_eq_true_iff _ _).mpr hw]
      · have hwc : context.user.propertyTypes.contains "all_types" = false := by
          exact Bool.not_eq_true _ ▸ fun hc => hw ((contains_eq_true_iff _ _).mp hc)
        simp only [Bool.not_eq_true] at hu
        simp only [hu, hwc, Bool.or_self, if_false, Bool.false_eq_true, false_or, hw]
        cases hmd : context.metadata with
        | none => simp
        | some m =>
          cases hpt : m.propertyType with
          | none => simp [hpt]
          | some t =>
            by_cases ht : t = ""
            · simp [hpt, ht]
            · simp [hpt, ht]


/-! ### C5 -/

/-- The rule loop denies when no listed rule carries the requested
action with an absent-or-satisfied condition. -/
lemma checkRules_eq_false (context : PermissionContext) (l : List PermissionRule)
    (h : ∀ r ∈ l, r.actions.contains context.action = true → condHolds r context = false) :
    checkRules context l = false := by
  induction l with
  | nil => rfl
  | cons r rest ih =>
    unfold checkRules
    have hrest : ∀ r' ∈ rest, r'.actions.contains context.action = true →
        condHolds r' context = false :=
      fun r' hr' => h r' (List.mem_cons_of_mem _ hr')
    by_cases hc : r.actions.contains context.action = true
    · have hcond := h r (List.mem_cons_self _ _) hc
      unfold condHolds at hcond
      cases hcnd : r.condition with
      | none => rw [hcnd] at hcond; exact absurd hcond (by simp)
      | some cond =>
        rw [hcnd] at hcond
        have hcond' : evalCondition cond context = false := hcond
        simp [hc, hcnd, hcond', ih hrest]
    · simp only [Bool.not_eq_true] at hc
      have hnm : context.action ∉ r.actions := fun hm => by
        rw [(contains_eq_true_iff _ _).mpr hm] at hc
        cases hc
      simp [hc, hnm, ih hrest]

/-- C5: default deny, not an error — `checkPermission` returns `false`
(it is a total boolean function) whenever no rule in `PERMISSION_RULES`
matches the identity's role and the requested resource kind while
carrying the requested action with an absent or satisfied condition;
unknown roles, resource kinds with no rules for the role, and actions
outside every matching rule's action set are all denied. -/
theorem defaultDenyWhenNoRuleMatches (context : PermissionContext)
    (h : ∀ rule ∈ PERMISSION_RULES,
      ¬(rule.role = context.user.role ∧ rule.resource = context.resource ∧
        context.action ∈ rule.actions ∧ condHolds rule context = true)) :
    checkPermission context = false := by
  unfold checkPermission
  apply checkRules_eq_false
  intro r hr hact
  have hmem := List.mem_filter.mp hr
  have hrr := hmem.2
  simp only [Bool.and_eq_true, beq_iff_eq] at hrr
  have hnomatch := h r hmem.1
  by_cases hcond : condHolds r context = true
  · exact absurd ⟨hrr.1, hrr.2, (contains_eq_true_iff _ _).mp hact, hcond⟩ hnomatch
  · exact Bool.not_eq_true _ ▸ hcond

/-- Witness for C5: an unknown role (`"ghost"`) is denied. -/
theorem defaultDenyWhenNoRuleMatches_witness :
    checkPermission
      ⟨⟨"u9", "g@x", "ghost", ["r1"], ["office"], [], false, 0⟩,
        .BUILDING, .READ, none, none⟩ = false :=
  defaultDenyWhenNoRuleMatches _ (by decide)


/-! ### Cache helper lemmas -/

/-- Reading back the key just written by `mapInsert`. -/
lemma mapFind_mapInsert_self (key : String) (entry : CacheEntry) (c : CacheState) :
    mapFind key (mapInsert key entry c) = some entry := by
  induction c with
  | nil => simp [mapInsert, mapFind]
  | cons kv rest ih =>
    unfold mapInsert
    by_cases hk : kv.1 = key
    · simp [mapFind, hk]
    · simp [mapFind, hk, ih]

/-- A prefix test always succeeds on the prefix itself extended by
anything. -/
lemma listIsPfx_append (l r : List Char) : listIsPfx l (l ++ r) = true := by
  induction l with
  | nil => rfl
  | cons a as ih => simp [listIsPfx, ih]

/-- Every key built by `getCacheKey` for a user starts with
`` `${user.id}:` ``. -/
lemma strStartsWith_getCacheKey (context : PermissionContext) (userId : String)
    (hid : context.user.id = userId) :
    strStartsWith (getCacheKey context) (userId ++ ":") = true := by
  unfold strStartsWith getCacheKey
  rw [hid]
  have : (userId ++ ":" ++ context.resource.str ++ ":" ++ context.action.str ++ ":" ++
      context.resourceId.getD "").data =
      (userId ++ ":").data ++ (context.resource.str ++ ":" ++ context.action.str ++ ":" ++
        context.resourceId.getD "").data := by
    simp [String.data_append, List.append_assoc]
  rw [this]
  exact listIsPfx_append _ _

/-- Embedded `invalidateUser` leaves no binding whose key starts with the
invalidated `` `${userId}:` `` prefix. -/
lemma mapFind_invalidateUser_removed (userId key : String) (c : CacheState)
    (h : strStartsWith key (userId ++ ":") = true) :
    mapFind key (invalidateUser userId c) = none := by
  induction c with
  | nil => rfl
  | cons kv rest ih =>
    unfold invalidateUser at ih ⊢
    rw [List.filter_cons]
    by_cases hkeep : strStartsWith kv.1 (userId ++ ":") = false
    · simp only [hkeep, Bool.not_false, if_true]
      unfold mapFind
      by_cases hk : kv.1 = key
      · rw [hk] at hkeep
        rw [h] at hkeep
        cases hkeep
      · simp [hk, ih]
    · simp only [Bool.not_eq_false] at hkeep
      simp only [hkeep, Bool.not_true, Bool.false_eq_true, if_false]
      exact ih

/-- Embedded `invalidateUser` does not disturb the binding of a key that does not
carry the invalidated prefix. -/
lemma mapFind_invalidateUser_kept (userId key : String) (c : CacheState)
    (h : strStartsWith key (userId ++ ":") = false) :
    mapFind key (invalidateUser userId c) = mapFind key c := by
  induction c with
  | nil => rfl
  | cons kv rest ih =>
    unfold invalidateUser at ih ⊢
    rw [List.filter_cons]
    by_cases hk : kv.1 = key
    · rw [hk, h]
      simp [mapFind, hk]
    · by_cases hkeep : strStartsWith kv.1 (userId ++ ":") = false
      · simp only [hkeep, Bool.not_false, if_true]
        unfold mapFind
        simp [hk, ih]
      · simp only [Bool.not_eq_false] at hkeep
        simp only [hkeep, Bool.not_true, Bool.false_eq_true, if_false]
        rw [ih]
        simp [mapFind, hk]


/-! ### C6 -/

/-- C6: cache TTL coherence with the 5-minute TTL. (i) After `cacheSet`
stores decision `d` at time `t0`, a lookup at any time `t1` within the
TTL returns `d` and, in `checkPermissionWithCacheGen`, does so for every
evaluation function — the rule evaluation is not re-run on a fresh hit.
(ii) A `cacheGet` on an entry whose age exceeds the TTL is a miss and
removes the entry. (iii) Whatever `cacheGet` returns as a hit comes from
a stored entry whose age is within the TTL — the cache never serves a
decision older than its TTL. -/
theorem cacheTTLCoherence (context : PermissionContext) (c : CacheState) (d : Bool)
    (t0 t1 : Nat) (hfresh : t1 - t0 ≤ cacheTTL) :
    (∀ evalFn, checkPermissionWithCacheGen evalFn t1 context (cacheSet t0 context d c) =
      (d, cacheSet t0 context d c))
    ∧ (∀ e, mapFind (getCacheKey context) c = some e → t1 - e.timestamp > cacheTTL →
      cacheGet t1 context c = (none, mapDelete (getCacheKey context) c))
    ∧ (∀ b c', cacheGet t1 context c = (some b, c') →
      ∃ e, mapFind (getCacheKey context) c = some e ∧ e.result = b ∧
        t1 - e.timestamp ≤ cacheTTL ∧ c' = c) := by
  refine ⟨?_, ?_, ?_⟩
  · intro evalFn
    have hhit : cacheGet t1 context (cacheSet t0 context d c) =
        (some d, cacheSet t0 context d c) := by
      unfold cacheGet cacheSet
      rw [mapFind_mapInsert_self]
      simp [Nat.not_lt.mpr hfresh]
    unfold checkPermissionWithCacheGen
    rw [hhit]
  · intro e hfind hexp
    unfold cacheGet
    rw [hfind]
    simp [hexp]
  · intro b c' hget
    unfold cacheGet at hget
    cases hfind : mapFind (getCacheKey context) c with
    | none => rw [hfind] at hget; cases hget
    | some e =>
      rw [hfind] at hget
      by_cases hexp : t1 - e.timestamp > cacheTTL
      · simp [hexp] at hget
      · simp only [hexp, if_false] at hget
        obtain ⟨h1, h2⟩ := Prod.mk.injEq .. ▸ hget
        exact ⟨e, rfl, (Option.some.injEq .. ▸ h1), Nat.not_lt.mp hexp, h2.symm⟩

/-- Witness for C6 at a concrete context, cache and pair of instants
within the TTL. -/
theorem cacheTTLCoherence_witness :
    checkPermissionWithCacheGen (fun _ => false) 300000
      ⟨⟨"u1", "b@x", "broker", ["r1"], ["office"], ["b1"], false, 0⟩,
        .BUILDING, .READ, none, none⟩
      (cacheSet 0
        ⟨⟨"u1", "b@x", "broker", ["r1"], ["office"], ["b1"], false, 0⟩,
          .BUILDING, .READ, none, none⟩ true []) =
      (true,
        cacheSet 0
          ⟨⟨"u1", "b@x", "broker", ["r1"], ["office"], ["b1"], false, 0⟩,
            .BUILDING, .READ, none, none⟩ true []) :=
  (cacheTTLCoherence _ [] true 0 300000 (by decide)).1 (fun _ => false)


/-! ### C7 -/

/-- C7: for every cache state and identity id, `invalidateUser` removes
every cache binding keyed (via `getCacheKey`) to that identity, and a
subsequent cached permission check for any context of that identity
misses the cache and recomputes the decision with the supplied
evaluation function, storing the fresh result. -/
theorem invalidateUserRemovesIdentityEntries (userId : String) (c : CacheState)
    (context : PermissionContext) (hid : context.user.id = userId)
    (evalFn : PermissionContext → Bool) (now : Nat) :
    mapFind (getCacheKey context) (invalidateUser userId c) = none
    ∧ checkPermissionWithCacheGen evalFn now context (invalidateUser userId c) =
      (evalFn context,
        cacheSet now context (evalFn context) (invalidateUser userId c)) := by
  have hrm : mapFind (getCacheKey context) (invalidateUser userId c) = none :=
    mapFind_invalidateUser_removed userId _ c (strStartsWith_getCacheKey context userId hid)
  refine ⟨hrm, ?_⟩
  unfold checkPermissionWithCacheGen cacheGet
  rw [hrm]

/-- Witness for C7 at a concrete one-entry cache. -/
theorem invalidateUserRemovesIdentityEntries_witness :
    mapFind
      (getCacheKey
        ⟨⟨"u1", "b@x", "broker", ["r1"], ["office"], ["b1"], false, 0⟩,
          .BUILDING, .READ, none, none⟩)
      (invalidateUser "u1" [("u1:building:read:", ⟨true, 0⟩)]) = none :=
  (invalidateUserRemovesIdentityEntries "u1" [("u1:building:read:", ⟨true, 0⟩)]
    ⟨⟨"u1", "b@x", "broker", ["r1"], ["office"], ["b1"], false, 0⟩,
      .BUILDING, .READ, none, none⟩ rfl (fun _ => true) 0).1

/-! ### C10 -/

/-- A colon-free word followed by `':'` is never a prefix of a different
colon-free word followed by `':'` and anything else. -/
lemma listIsPfx_colon_sep (l1 : List Char) :
    ∀ (l2 rest : List Char), ':' ∉ l1 → ':' ∉ l2 → l1 ≠ l2 →
      listIsPfx (l1 ++ [':']) (l2 ++ ':' :: rest) = false := by
  induction l1 with
  | nil =>
    intro l2 rest h1 h2 hne
    cases l2 with
    | nil => exact absurd rfl hne
    | cons b bs =>
      have hb : ':' ≠ b := fun hb => h2 (List.mem_cons.mpr (Or.inl hb))
      simp [listIsPfx, hb]
  | cons a as ih =>
    intro l2 rest h1 h2 hne
    have ha : a ≠ ':' := fun ha => h1 (ha ▸ List.mem_cons_self _ _)
    cases l2 with
    | nil => simp [listIsPfx, ha]
    | cons b bs =>
      by_cases hab : a = b
      · subst hab
        have hne' : as ≠ bs := fun h => hne (congrArg (List.cons a) h)
        have h1' : ':' ∉ as := fun h => h1 (List.mem_cons_of_mem _ h)
        have h2' : ':' ∉ bs := fun h => h2 (List.mem_cons_of_mem _ h)
        simp [listIsPfx, ih bs rest h1' h2' hne']
      · simp [listIsPfx, hab]

/-- For colon-free distinct ids, a `getCacheKey` key of one identity
never starts with the other identity's invalidation prefix. -/
lemma getCacheKey_not_other_user (id1 id2 : String) (context : PermissionContext)
    (h1 : ':' ∉ id1.data) (h2 : ':' ∉ id2.data) (hne : id1 ≠ id2)
    (hid : context.user.id = id2) :
    strStartsWith (getCacheKey context) (id1 ++ ":") = false := by
  unfold strStartsWith getCacheKey
  rw [hid]
  have hdata1 : (id1 ++ ":").data = id1.data ++ [':'] := by
    simp [String.data_append]
  have hdata2 : (id2 ++ ":" ++ context.resource.str ++ ":" ++ context.action.str ++ ":" ++
      context.resourceId.getD "").data =
      id2.data ++ ':' :: (context.resource.str ++ ":" ++ context.action.str ++ ":" ++
        context.resourceId.getD "").data := by
    simp [String.data_append, List.append_assoc]
  rw [hdata1, hdata2]
  exact listIsPfx_colon_sep id1.data id2.data _ h1 h2 (fun h => hne (String.ext h))

/-- C10: frame property of invalidation — for two distinct colon-free
identity ids, `invalidateUser id1` leaves every binding keyed (via
`getCacheKey`) to `id2` exactly as it was: the same lookup result (so
the same presence, decision and timestamp) and the same set of stored
bindings. -/
theorem invalidateUserFramesOtherIdentities (id1 id2 : String) (c : CacheState)
    (h1 : ':' ∉ id1.data) (h2 : ':' ∉ id2.data) (hne : id1 ≠ id2)
    (context : PermissionContext) (hid : context.user.id = id2) :
    mapFind (getCacheKey context) (invalidateUser id1 c) =
      mapFind (getCacheKey context) c
    ∧ ∀ e : CacheEntry, (getCacheKey context, e) ∈ invalidateUser id1 c ↔
        (getCacheKey context, e) ∈ c := by
  have hkept : strStartsWith (getCacheKey context) (id1 ++ ":") = false :=
    getCacheKey_not_other_user id1 id2 context h1 h2 hne hid
  constructor
  · exact mapFind_invalidateUser_kept id1 _ c hkept
  · intro e
    unfold invalidateUser
    rw [List.mem_filter]
    simp [hkept]

/-- Witness for C10: invalidating `"alice"` leaves `"bob"`'s binding
untouched in a concrete two-entry cache. -/
theorem invalidateUserFramesOtherIdentities_witness :
    mapFind
      (getCacheKey
        ⟨⟨"bob", "b@x", "broker", [], [], [], false, 0⟩, .BUILDING, .READ, none, none⟩)
      (invalidateUser "alice"
        [("alice:building:read:", ⟨true, 0⟩), ("bob:building:read:", ⟨false, 7⟩)]) =
      mapFind
        (getCacheKey
          ⟨⟨"bob", "b@x", "broker", [], [], [], false, 0⟩, .BUILDING, .READ, none, none⟩)
        [("alice:building:read:", ⟨true, 0⟩), ("bob:building:read:", ⟨false, 7⟩)] :=
  (invalidateUserFramesOtherIdentities "alice" "bob"
    [("alice:building:read:", ⟨true, 0⟩), ("bob:building:read:", ⟨false, 7⟩)]
    (by decide) (by decide) (by decide)
    ⟨⟨"bob", "b@x", "broker", [], [], [], false, 0⟩, .BUILDING, .READ, none, none⟩ rfl).1
